import Mathlib

/-!
Verification of the Forum-Scraping repository core logic.

This development embeds, as pure Lean functions, the logic of
`src/service/forumDetailPageScraping.ts` (class `ForumDetailPageScraper`) and
of the `S3Service` class (key generation, upload retry), and proves the
behavioural properties stated in the specification: pagination checkpointing
and resume semantics, worker partitioning, media deduplication, retry bounds,
replace-on-rescrape persistence and the shape of total-page discovery.

Conventions of the embedding:
- JavaScript strings are Lean `String`s; `String.includes`, `.split`,
  `.replace` (first occurrence), `.endsWith` and the template-literal
  rendering of a non-negative number are modelled by the helpers below.
- The asynchronous effects (navigation, download, upload) are abstracted as
  oracles: a function from the attempt number (or the task) to the outcome.
- Database tables are lists of row structures; Sequelize `destroy`/`create`
  become list filtering and appending.
-/

namespace ForumScraping

/-- Membership of a character in the class `[A-Za-z0-9.-]` used by the
sanitization regex of `S3Service.generateKeyWithExtension`. -/
def allowedChar (c : Char) : Bool :=
  ('a' ≤ c && c ≤ 'z') || ('A' ≤ c && c ≤ 'Z') || ('0' ≤ c && c ≤ '9') ||
    c = '.' || c = '-'

/-- Model of the sanitization `replace(/[^a-zA-Z0-9.-]/g, "_")`: every
character outside the class is replaced by an underscore. -/
def sanitizeChars (l : List Char) : List Char :=
  l.map (fun c => if allowedChar c then c else '_')

/-- Model of JavaScript `haystack.includes(needle)` on character lists. -/
def hasSub : List Char → List Char → Bool
  | [], pat => pat.isEmpty
  | c :: rest, pat => pat.isPrefixOf (c :: rest) || hasSub rest pat

/-- Model of JavaScript `s.includes(pat)`. -/
def strIncludes (s pat : String) : Bool :=
  hasSub s.data pat.data

/-- Replace the first occurrence of `pat` in a character list by `repl`
(JavaScript `String.prototype.replace` with a string pattern). -/
def replaceFirstAux : List Char → List Char → List Char → List Char
  | [], pat, repl => if pat.isEmpty then repl else []
  | c :: rest, pat, repl =>
    if pat.isPrefixOf (c :: rest) then repl ++ (c :: rest).drop pat.length
    else c :: replaceFirstAux rest pat repl

/-- Model of JavaScript `s.replace(pat, repl)` (first occurrence only). -/
def strReplaceFirst (s pat repl : String) : String :=
  String.mk (replaceFirstAux s.data pat.data repl.data)

/-- Model of JavaScript `s.split(sep)` for a single-character separator
(the only form the sources use): `"".split(sep)` is `[""]`, a separator at
either end contributes an empty part. -/
def splitChars (sep : Char) : List Char → List (List Char)
  | [] => [[]]
  | c :: rest =>
    match splitChars sep rest with
    | [] => [[]]
    | h :: t => if c = sep then [] :: h :: t else (c :: h) :: t

/-- Model of JavaScript `s.startsWith(pat)`. -/
def strStartsWith (s pat : String) : Bool :=
  pat.data.isPrefixOf s.data

/-- Model of JavaScript `s.toLowerCase()` on the ASCII strings the scraper
handles. -/
def strToLower (s : String) : String :=
  String.mk (s.data.map Char.toLower)

/-- `parts[parts.length - 1] || dflt` on the result of a JavaScript split:
the last element, or the default when it is the empty string. -/
def lastPartOr (parts : List (List Char)) (dflt : List Char) : List Char :=
  match parts.getLast? with
  | some s => if s.isEmpty then dflt else s
  | none => dflt

/-- `parts[0] || dflt` on the result of a JavaScript split. -/
def headPartOr (parts : List (List Char)) (dflt : List Char) : List Char :=
  match parts with
  | [] => dflt
  | s :: _ => if s.isEmpty then dflt else s

/-- Little-endian decimal digits, driven by explicit fuel so that the
function is structurally recursive (the fuel is irrelevant once it is at
least the argument, see `natDigitsRevFuel_irrel`). -/
def natDigitsRevFuel : Nat → Nat → List Char
  | 0, _ => []
  | fuel + 1, n =>
    if n = 0 then [] else Nat.digitChar (n % 10) :: natDigitsRevFuel fuel (n / 10)

/-- Little-endian decimal digits of a natural number (empty for 0). -/
def natDigitsRev (n : Nat) : List Char :=
  natDigitsRevFuel n n

/-- Decimal rendering of a natural number, modelling the JavaScript
template-literal interpolation of a non-negative integer. -/
def natToString (n : Nat) : String :=
  if n = 0 then "0" else String.mk (natDigitsRev n).reverse

theorem natDigitsRevFuel_irrel :
    ∀ f₁ f₂ n : Nat, n ≤ f₁ → n ≤ f₂ → natDigitsRevFuel f₁ n = natDigitsRevFuel f₂ n := by
  intro f₁
  induction f₁ with
  | zero =>
    intro f₂ n h1 h2
    have hn : n = 0 := by omega
    subst hn
    cases f₂ with
    | zero => rfl
    | succ f => simp [natDigitsRevFuel]
  | succ f ihf =>
    intro f₂ n h1 h2
    cases f₂ with
    | zero =>
      have hn : n = 0 := by omega
      subst hn
      simp [natDigitsRevFuel]
    | succ g =>
      by_cases hn : n = 0
      · simp [natDigitsRevFuel, hn]
      · simp only [natDigitsRevFuel, hn, if_false]
        have hlt : n / 10 < n := Nat.div_lt_self (Nat.pos_of_ne_zero hn) (by decide)
        rw [ihf g (n / 10) (by omega) (by omega)]

theorem natDigitsRev_eq (n : Nat) (hn : n ≠ 0) :
    natDigitsRev n = Nat.digitChar (n % 10) :: natDigitsRev (n / 10) := by
  rw [natDigitsRev]
  cases n with
  | zero => exact absurd rfl hn
  | succ k =>
    simp only [natDigitsRevFuel, Nat.succ_ne_zero, if_false]
    rw [natDigitsRev]
    have hlt : (k + 1) / 10 < k + 1 := Nat.div_lt_self (Nat.succ_pos k) (by decide)
    rw [natDigitsRevFuel_irrel k ((k + 1) / 10) ((k + 1) / 10) (by omega) (Nat.le_refl _)]

theorem natDigitsRev_nil_iff (n : Nat) : natDigitsRev n = [] ↔ n = 0 := by
  constructor
  · intro h
    by_contra hn
    rw [natDigitsRev_eq n hn] at h
    simp at h
  · intro h
    subst h
    rfl

theorem digitChar_injOn (a b : Nat) (ha : a < 10) (hb : b < 10)
    (h : Nat.digitChar a = Nat.digitChar b) : a = b := by
  interval_cases a <;> interval_cases b <;> simp_all [Nat.digitChar]

theorem natDigitsRev_inj : ∀ m n : Nat, natDigitsRev m = natDigitsRev n → m = n := by
  intro m
  induction m using Nat.strong_induction_on with
  | _ m ih =>
    intro n h
    by_cases hm : m = 0
    · subst hm
      by_cases hn : n = 0
      · omega
      · rw [(natDigitsRev_nil_iff 0).mpr rfl] at h
        exact absurd h.symm (by simpa [natDigitsRev_nil_iff] using hn)
    · by_cases hn : n = 0
      · subst hn
        rw [(natDigitsRev_nil_iff 0).mpr rfl] at h
        exact absurd h (by simpa [natDigitsRev_nil_iff] using hm)
      · have em := natDigitsRev_eq m hm
        have en := natDigitsRev_eq n hn
        rw [em, en, List.cons.injEq] at h
        obtain ⟨hhead, htail⟩ := h
        have hmod : m % 10 = n % 10 :=
          digitChar_injOn _ _ (Nat.mod_lt _ (by decide)) (Nat.mod_lt _ (by decide)) hhead
        have hdiv : m / 10 = n / 10 :=
          ih (m / 10) (Nat.div_lt_self (Nat.pos_of_ne_zero hm) (by decide)) _ htail
        omega

theorem natToString_inj : ∀ m n : Nat, natToString m = natToString n → m = n := by
  have hzero : ∀ k : Nat, k ≠ 0 → natToString k ≠ "0" := by
    intro k hk hcontra
    rw [natToString] at hcontra
    simp only [hk, if_false] at hcontra
    have hdata : (natDigitsRev k).reverse = ['0'] := congrArg String.data hcontra
    have hlist : natDigitsRev k = ['0'] := by
      have := congrArg List.reverse hdata
      simpa using this
    have ek := natDigitsRev_eq k hk
    rw [ek, List.cons.injEq] at hlist
    obtain ⟨hhead, htail⟩ := hlist
    have hdiv : k / 10 = 0 := (natDigitsRev_nil_iff _).mp htail
    have hmod : k % 10 = 0 :=
      digitChar_injOn _ _ (Nat.mod_lt _ (by decide)) (by decide)
        (by simpa [Nat.digitChar] using hhead)
    omega
  intro m n h
  by_cases hm : m = 0
  · subst hm
    by_cases hn : n = 0
    · omega
    · exact absurd ((by simpa [natToString] using h) : "0" = natToString n).symm (hzero n hn)
  · by_cases hn : n = 0
    · subst hn
      exact absurd (by simpa [natToString] using h) (hzero m hm)
    · rw [natToString, natToString] at h
      simp only [hm, hn, if_false] at h
      have hdata : (natDigitsRev m).reverse = (natDigitsRev n).reverse :=
        congrArg String.data h
      exact natDigitsRev_inj m n (List.reverse_injective hdata)

/-- Uppercase hexadecimal digit, as the WHATWG URL serializer emits. -/
def hexDigitChar (n : Nat) : Char :=
  if n < 10 then Char.ofNat (48 + n) else Char.ofNat (65 + (n - 10))

/-- One character of a URL path as the WHATWG parser serializes it: a
character of the path percent-encode set — C0 controls, space, `"`, `<`,
`>`, the backtick, both curly brackets (0x7b and 0x7d), and 0x7f —
becomes `%XX`; everything else, `%` included, passes through unchanged. -/
def percentEncodeChar (c : Char) : List Char :=
  if c.toNat < 0x20 || c = ' ' || c = '"' || c = '<' || c = '>' ||
      c.toNat = 0x60 || c.toNat = 0x7b || c.toNat = 0x7d || c.toNat = 0x7f then
    ['%', hexDigitChar (c.toNat / 16), hexDigitChar (c.toNat % 16)]
  else [c]

/-- Model of `new URL(u).pathname` for an absolute http(s) URL of ASCII
characters: the part of the string after the scheme-and-host prefix, up to
the first `?` or `#` (the root path `/` when the URL has no path), with
every character of the path percent-encode set percent-encoded as the
WHATWG parser does. Non-ASCII input (UTF-8 multi-byte percent-encoding),
backslash conversion and dot-segment normalization are outside the model's
scope; no URL in this development needs them. -/
def urlPathname (u : String) : String :=
  let afterScheme := replaceFirstAux u.data "://".data []
  let rest := afterScheme.dropWhile (fun c => c ≠ '/')
  let path := rest.takeWhile (fun c => c ≠ '?' && c ≠ '#')
  if path.isEmpty then "/" else String.mk (path.flatMap percentEncodeChar)

/-- `S3Service.MAX_RETRIES`. -/
def s3MAX_RETRIES : Nat := 3

/-- `S3Service.RETRY_DELAY` in milliseconds. -/
def s3RETRY_DELAY : Nat := 2000

/-- The `extension` local of `S3Service.generateKey`:
`filename.split(".").pop() || "jpg"` where `filename` is the last pathname
part (default `media`). -/
def gkExtension (originalUrl : String) : String :=
  let filename := lastPartOr (splitChars '/' (urlPathname originalUrl).data) "media".data
  String.mk (lastPartOr (splitChars '.' filename) "jpg".data)

/-- The `baseFilename` local of `S3Service.generateKey`: the filename with
the first `.extension` occurrence removed, and — for full-size keys only —
the first `-media` occurrence removed. No sanitization, as in the source. -/
def gkBase (originalUrl : String) (isThumbnail : Bool) : String :=
  let filename := lastPartOr (splitChars '/' (urlPathname originalUrl).data) "media".data
  let base0 := replaceFirstAux filename ('.' :: (gkExtension originalUrl).data) []
  let base1 :=
    if !isThumbnail && hasSub base0 "-media".data then replaceFirstAux base0 "-media".data []
    else base0
  String.mk base1

/-- Embedding of `S3Service.generateKey`. `new URL(originalUrl).pathname` of
the source is modelled by `urlPathname`; the filename and extension locals
are `gkBase` and `gkExtension`. -/
def generateKey (originalUrl : String) (threadId postId : Nat)
    (isThumbnail : Bool) (uniqueId : Nat) : String :=
  let thumbSuffix := if isThumbnail then "_thumb" else ""
  "forum-media/" ++ natToString threadId ++ "/" ++ natToString postId ++ "/" ++
    natToString uniqueId ++ "-" ++ gkBase originalUrl isThumbnail ++ thumbSuffix ++
    "." ++ gkExtension originalUrl

/-- The `sanitizedFilename` local of `S3Service.generateKeyWithExtension`:
last raw-URL part after `/` (default `media`), text before the first dot
(default `media`), first `-media` occurrence removed for full-size keys,
then `replace(/[^a-zA-Z0-9.-]/g, "_")`. -/
def gkweBase (originalUrl : String) (isThumbnail : Bool) : String :=
  let filename := lastPartOr (splitChars '/' originalUrl.data) "media".data
  let base0 := headPartOr (splitChars '.' filename) "media".data
  let base1 :=
    if !isThumbnail && hasSub base0 "-media".data then replaceFirstAux base0 "-media".data []
    else base0
  String.mk (sanitizeChars base1)

/-- Embedding of `S3Service.generateKeyWithExtension`: the sanitized base
name is `gkweBase`, the extension is normalized to start with a dot, and
the key is assembled as in the source template literal. -/
def generateKeyWithExtension (originalUrl : String) (threadId postId : Nat)
    (extension : String) (isThumbnail : Bool) (uniqueId : Nat) : String :=
  let normalizedExtension := if strStartsWith extension "." then extension else "." ++ extension
  let thumbSuffix := if isThumbnail then "_thumb" else ""
  "forum-media/" ++ natToString threadId ++ "/" ++ natToString postId ++ "/" ++
    natToString uniqueId ++ "-" ++ gkweBase originalUrl isThumbnail ++ thumbSuffix ++
    normalizedExtension

/-- Embedding of `S3Service.processUploadTask`. `active` is whether the
task's id is in the `activeUploads` set when the call starts: the guard at
the top of the `try` returns `null` without running the body. The fallible
body (download plus upload) is the oracle `op`, indexed by the value of
`retryCount` at the call; a `none` outcome is the `catch` branch, which —
when retries remain — increments `retryCount`, waits
`RETRY_DELAY * retryCount`, and returns the recursive call. That `return`
is evaluated before the `finally` removes the id from `activeUploads`, and
the recursive call checks the guard synchronously, so the recursion always
runs with `active = true`. Returns the result, the number of times the
body ran, and the backoff delays awaited. -/
def processUploadTask (op : Nat → Option String) (active : Bool) (retryCount : Nat) :
    Option String × Nat × List Nat :=
  if active then (none, 0, [])
  else
    match op retryCount with
    | some s => (some s, 1, [])
    | none =>
      if h : retryCount < s3MAX_RETRIES then
        let r' := processUploadTask op true (retryCount + 1)
        (r'.1, r'.2.1 + 1, s3RETRY_DELAY * (retryCount + 1) :: r'.2.2)
      else (none, 1, [])
termination_by s3MAX_RETRIES - retryCount
decreasing_by simp [s3MAX_RETRIES] at h ⊢; omega

/-- `MAX_RETRIES` of `ForumDetailPageScraper.downloadFromAttachmentPage`. -/
def dMAX_RETRIES : Nat := 3

/-- One loop of `downloadFromAttachmentPage`: attempts run from `attempt` up
to `dMAX_RETRIES`; before every attempt after the first the code waits
`1000 * attempt` milliseconds; the attempt body (page creation, navigation,
buffer extraction) is the oracle `op`. Returns the result, the number of
attempts executed, and the delays in order. -/
def downloadLoop (op : Nat → Option α) (attempt : Nat) :
    Option α × Nat × List Nat :=
  if hstop : dMAX_RETRIES < attempt then (none, 0, [])
  else
    let delays := if 1 < attempt then [1000 * attempt] else []
    match op attempt with
    | some v => (some v, 1, delays)
    | none =>
      if attempt = dMAX_RETRIES then (none, 1, delays)
      else
        let r' := downloadLoop op (attempt + 1)
        (r'.1, r'.2.1 + 1, delays ++ r'.2.2)
termination_by dMAX_RETRIES + 1 - attempt
decreasing_by simp [dMAX_RETRIES] at hstop ⊢; omega

/-- Embedding of `downloadFromAttachmentPage`: the retry loop starting at
attempt 1. -/
def downloadFromAttachmentPage (op : Nat → Option α) : Option α × Nat × List Nat :=
  downloadLoop op 1

/-- Row of the `forum_threads` table, restricted to the columns the detail
scraper reads and writes. Dates are the ISO strings the model stores;
`detailPageUpdateDate` is nullable, `lastUpdatedPage` is null until first
written. -/
structure ThreadRow where
  threadId : Nat
  lastReplyDate : String
  detailPageUpdateDate : Option String
  lastUpdatedPage : Option Nat
deriving DecidableEq, Repr

/-- `const startPage = thread.lastUpdatedPage ? thread.lastUpdatedPage : 1`:
JavaScript truthiness maps both a null and a zero column to page 1. -/
def startPageOf (lastUpdatedPage : Option Nat) : Nat :=
  match lastUpdatedPage with
  | none => 1
  | some p => if p = 0 then 1 else p

/-- The page loop of `scrapeAllThreadPages`. `ok p` tells whether page `p`
is eventually scraped within its per-page retry budget (`true`) or all its
attempts fail (`false`). On success the checkpoint `lastUpdatedPage` is
updated to the current page; on failure the whole thread is abandoned (the
source `return`s). Returns the updated row, whether the loop ran to
completion, and the list of checkpoint writes in order. -/
def scrapePagesFrom (ok : Nat → Bool) (totalPages : Nat) (row : ThreadRow)
    (pageNum : Nat) : ThreadRow × Bool × List Nat :=
  if hstop : totalPages < pageNum then (row, true, [])
  else if ok pageNum then
    let r' := scrapePagesFrom ok totalPages { row with lastUpdatedPage := some pageNum }
      (pageNum + 1)
    (r'.1, r'.2.1, pageNum :: r'.2.2)
  else (row, false, [])
termination_by totalPages + 1 - pageNum
decreasing_by omega

/-- Embedding of `scrapeAllThreadPages`: compute the start page from the
stored checkpoint, walk pages in ascending order, and only when every page
up to `totalPages` completed set `detailPageUpdateDate` to the
`lastReplyDate` the thread row carried when it was selected. -/
def scrapeAllThreadPages (row : ThreadRow) (totalPages : Nat) (ok : Nat → Bool) :
    ThreadRow :=
  let startPage := startPageOf row.lastUpdatedPage
  let r' := scrapePagesFrom ok totalPages row startPage
  if r'.2.1 then { r'.1 with detailPageUpdateDate := some row.lastReplyDate }
  else r'.1

/-- The `where` clause of `getThreadsNeedingUpdate`: `detailPageUpdateDate`
is null, or `lastReplyDate > detailPageUpdateDate` (string comparison, as
the columns are strings). -/
def needsDetailUpdate (row : ThreadRow) : Bool :=
  match row.detailPageUpdateDate with
  | none => true
  | some d => d < row.lastReplyDate

/-- The `ForumThread.findAll` query of `getThreadsNeedingUpdate` (the
`order by lastReplyDate desc` clause only permutes the result and is not
modelled). -/
def findThreadsNeedingSync (rows : List ThreadRow) : List ThreadRow :=
  rows.filter needsDetailUpdate

/-- The node-distribution ownership predicate
`thread.threadId % this.NODE_COUNT === this.NODE_INDEX`. -/
def owns (threadId nodeIndex nodeCount : Nat) : Bool :=
  threadId % nodeCount == nodeIndex

/-- Embedding of `getThreadsNeedingUpdate`: the staleness query followed by
the node-distribution filter. -/
def getThreadsNeedingUpdate (rows : List ThreadRow) (nodeIndex nodeCount : Nat) :
    List ThreadRow :=
  (findThreadsNeedingSync rows).filter (fun t => owns t.threadId nodeIndex nodeCount)

/-- What the rendered thread page offers to `getTotalPages`: the navigation
lookup threw (`navError`), the `.pageNav-main` element is missing, the
`li:last-child a` link is missing, or a link with the given `href` exists. -/
inductive PageNavOutcome where
  | navError
  | noPageNav
  | noLastLink
  | lastLink (href : String)

/-- `parseInt` on a list of decimal digits. -/
def digitsToNat (l : List Char) : Nat :=
  l.foldl (fun acc c => acc * 10 + (c.toNat - '0'.toNat)) 0

/-- Model of `href.match(/page-(\d+)$/)`: the trailing maximal digit run,
provided it is non-empty and preceded by the literal `page-`. -/
def matchPageSuffix (href : String) : Option Nat :=
  let rev := href.data.reverse
  let dsRev := rev.takeWhile Char.isDigit
  if dsRev.isEmpty then none
  else if ("page-".data.reverse).isPrefixOf (rev.drop dsRev.length) then
    some (digitsToNat dsRev.reverse)
  else none

/-- Embedding of `getTotalPages`: every failure path — a thrown navigation
or evaluation error (caught by the surrounding `try`), a missing
`.pageNav-main`, a missing last link, or an `href` without a trailing
`page-N` — produces 1. -/
def getTotalPages : PageNavOutcome → Nat
  | .navError => 1
  | .noPageNav => 1
  | .noLastLink => 1
  | .lastLink href => (matchPageSuffix href).getD 1

/-- Embedding of `ForumDetailPageScraper.isImageUrl`: the lowercased URL
contains one of the known image extensions. -/
def isImageUrl (url : String) : Bool :=
  [".jpg", ".jpeg", ".png", ".gif", ".bmp", ".webp", ".svg"].any
    (fun ext => strIncludes (strToLower url) ext)

/-- Embedding of `ForumDetailPageScraper.isVideoUrl`: a known video
extension or a video-host marker in the lowercased URL. -/
def isVideoUrl (url : String) : Bool :=
  [".mp4", ".avi", ".mov", ".wmv", ".flv", ".webm", ".mkv"].any
    (fun ext => strIncludes (strToLower url) ext) ||
  strIncludes (strToLower url) "youtube.com" || strIncludes (strToLower url) "youtu.be" ||
  strIncludes (strToLower url) "vimeo.com"

/-- Embedding of `shouldSkipUrl`: tracking pixels and non-URL anchors. -/
def shouldSkipUrl (url : String) : Bool :=
  strIncludes url
    "data:image/gif;base64,R0lGODlhAQABAIAAAAAAAP///yH5BAEAAAAALAAAAAABAAEAAAIBRAA7" ||
  (strIncludes url "data:image/gif;base64," && strIncludes url "R0lGODlhAQABAIAAAAAAAP") ||
  url = "#" || url = "javascript:void(0)"

/-- Names and extensions checked by `isNotRawImg` and
`extractFileExtensionFromAttachmentUrl`. -/
def imageNames : List String := ["jpg", "jpeg", "png", "gif", "bmp", "webp", "svg"]

/-- Video tokens of the same helpers. -/
def videoNames : List String := ["mp4", "avi", "mov", "wmv", "flv", "webm", "mkv"]

/-- Embedding of `isNotRawImg`: the URL carries an image or video token but
no dotted extension, so it is an attachment page needing resolution. -/
def isNotRawImg (url : String) : Bool :=
  let lowerUrl := strToLower url
  let hasImageName := imageNames.any (fun name =>
    strIncludes lowerUrl ("-" ++ name) || strIncludes lowerUrl ("_" ++ name) ||
    strIncludes lowerUrl (name ++ "-") || strIncludes lowerUrl name)
  let hasImageExtension := imageNames.any (fun name => strIncludes lowerUrl ("." ++ name))
  let hasVideoExtension := videoNames.any (fun name => strIncludes lowerUrl ("." ++ name))
  let hasVideoName := videoNames.any (fun name =>
    strIncludes lowerUrl ("-" ++ name) || strIncludes lowerUrl ("_" ++ name) ||
    strIncludes lowerUrl (name ++ "-") || strIncludes lowerUrl name)
  (hasImageName || hasVideoName) && !hasImageExtension && !hasVideoExtension

/-- Embedding of `extractFileExtensionFromAttachmentUrl`: dotted image
extensions first, then separator-adjacent image tokens, then dotted video
extensions, then separator-adjacent video tokens, defaulting to `.jpg`.
The source lists `.png` first among dotted image extensions. -/
def extractFileExtensionFromAttachmentUrl (attachmentUrl : String) : String :=
  let lowerUrl := strToLower attachmentUrl
  let dottedImage := [".png", ".jpg", ".jpeg", ".gif", ".bmp", ".webp", ".svg"]
  match dottedImage.find? (fun ext => strIncludes lowerUrl ext) with
  | some ext => ext
  | none =>
    match ["png", "jpg", "jpeg", "gif", "bmp", "webp", "svg"].find? (fun name =>
        strIncludes lowerUrl ("-" ++ name) || strIncludes lowerUrl ("_" ++ name) ||
        strIncludes lowerUrl (name ++ "-")) with
    | some name => "." ++ name
    | none =>
      match [".mp4", ".avi", ".mov", ".wmv", ".flv", ".webm", ".mkv"].find?
          (fun ext => strIncludes lowerUrl ext) with
      | some ext => ext
      | none =>
        match videoNames.find? (fun name =>
            strIncludes lowerUrl ("-" ++ name) || strIncludes lowerUrl ("_" ++ name) ||
            strIncludes lowerUrl (name ++ "-")) with
        | some name => "." ++ name
        | none => ".jpg"

/-- The deduplication key of a `[fullUrl, thumbUrl]` media pair in
`scrapePagePosts`: `fullUrl || thumbUrl`. -/
def dedupKey (m : String × String) : String :=
  if m.1 ≠ "" then m.1 else m.2

/-- The `urlMap` insertion loop of `scrapePagePosts`: walk the pairs, keep a
pair only when its key has not been seen. `Array.from(urlMap.values())`
yields exactly the kept pairs in this first-occurrence order. -/
def dedupMediasAux : List (String × String) → List String → List (String × String)
  | [], _ => []
  | m :: rest, seen =>
    if seen.contains (dedupKey m) then dedupMediasAux rest seen
    else m :: dedupMediasAux rest (dedupKey m :: seen)

/-- The duplicate removal of media pairs in `scrapePagePosts`. -/
def dedupMedias (l : List (String × String)) : List (String × String) :=
  dedupMediasAux l []

/-- Element of `allMediaTasks` in `processBatchMedia`. -/
structure PreTask where
  postId : Nat
  fullSizeUrl : String
  thumbUrl : String
  fullKey : String
  thumbKey : String
deriving DecidableEq, Repr

/-- Element of `uploadTasks` in `processBatchMedia`. -/
structure UploadTask where
  postId : Nat
  url : String
  key : String
  isThumb : Nat
  hasThumb : Bool
deriving DecidableEq, Repr

/-- The settled value of one upload promise in `processBatchMedia`. -/
structure TaskResult where
  postId : Nat
  s3Url : String
  isThumb : Nat
  hasThumb : Bool
  success : Bool
deriving DecidableEq, Repr

/-- Entry of the map `processBatchMedia` returns. -/
structure MediaEntry where
  s3Url : String
  hasThumbnail : Bool
deriving DecidableEq, Repr

/-- The `allMediaTasks` preparation loop of `processBatchMedia` for one
post: `uniqueId` counts every media pair (it is incremented outside the
guard), empty pairs and pairs with a skippable URL produce no task, and the
keys come from `generateKeyWithExtension` for attachment pages and from
`generateKey` otherwise. One divergence from the source on unreachable
inputs: the source's `continue` on a skippable URL also skips the
`uniqueId++`, while this model numbers by list position; the two agree on
every input containing no skippable pair, which `filterPostMedias` in
`scrapePagePosts` guarantees before `processBatchMedia` runs. -/
def allMediaTasksFor (threadId postId : Nat) (medias : List (String × String)) :
    List PreTask :=
  medias.enum.filterMap (fun pr =>
    let uniqueId := pr.1
    let fullUrl := pr.2.1
    let thumbUrl := pr.2.2
    if fullUrl ≠ "" || thumbUrl ≠ "" then
      if shouldSkipUrl fullUrl || shouldSkipUrl thumbUrl then none
      else
        let baseUrl := if fullUrl ≠ "" then fullUrl else thumbUrl
        if isNotRawImg baseUrl then
          let extension := extractFileExtensionFromAttachmentUrl baseUrl
          some ⟨postId, fullUrl, thumbUrl,
            generateKeyWithExtension baseUrl threadId postId extension false uniqueId,
            generateKeyWithExtension baseUrl threadId postId extension true uniqueId⟩
        else
          some ⟨postId, fullUrl, thumbUrl,
            generateKey baseUrl threadId postId false uniqueId,
            generateKey baseUrl threadId postId true uniqueId⟩
    else none)

/-- The `uploadTasks` flattening of `processBatchMedia`: one task per
non-empty URL of each prepared pair, both carrying `hasThumb`. -/
def uploadTasksOf (pre : List PreTask) : List UploadTask :=
  pre.flatMap (fun t =>
    let hasThumb := t.thumbUrl ≠ ""
    (if t.fullSizeUrl ≠ "" then [⟨t.postId, t.fullSizeUrl, t.fullKey, 0, hasThumb⟩] else []) ++
    (if t.thumbUrl ≠ "" then [⟨t.postId, t.thumbUrl, t.thumbKey, 1, hasThumb⟩] else []))

/-- The public URL built after a successful upload. -/
def finalS3Url (bucket region key : String) : String :=
  "https://" ++ bucket ++ ".s3." ++ region ++ ".wasabisys.com/" ++ key

/-- The settled value of one task's promise: the inner `try`/`catch` turns
both download failure and upload failure into a `success: false` record, so
every promise fulfills. `ok` is the oracle for "the buffer resolved and the
`PutObjectCommand` succeeded". -/
def taskResult (bucket region : String) (ok : UploadTask → Bool) (t : UploadTask) :
    TaskResult :=
  if ok t then ⟨t.postId, finalS3Url bucket region t.key, t.isThumb, t.hasThumb, true⟩
  else ⟨t.postId, t.url, t.isThumb, t.hasThumb, false⟩

/-- Embedding of `processBatchMedia` as the lookup function of the returned
`postMediaMap`: all upload tasks of the batch are prepared, settled, and a
result is recorded under its post id only when it succeeded and is a
full-size (non-thumbnail) task. -/
def processBatchMedia (bucket region : String)
    (posts : List (Nat × List (String × String))) (threadId : Nat)
    (ok : UploadTask → Bool) : Nat → List MediaEntry :=
  fun p =>
    (((posts.flatMap (fun pr => allMediaTasksFor threadId pr.1 pr.2)) |> uploadTasksOf)
      |>.map (taskResult bucket region ok)
      |>.filterMap (fun r =>
        if r.success && r.isThumb == 0 && r.postId == p then
          some ⟨r.s3Url, r.hasThumb⟩
        else none))

/-- Row of the `ForumMedia` table. -/
structure MediaRow where
  threadId : Nat
  postId : Nat
  link : String
  type : String
  existThumb : Nat
deriving DecidableEq, Repr

/-- The media type decision of the save loops: `img` for image URLs, `mov`
for video URLs, nothing otherwise. -/
def mediaTypeOf (s3Url : String) : Option String :=
  if isImageUrl s3Url then some "img"
  else if isVideoUrl s3Url then some "mov"
  else none

/-- The `ForumMedia.destroy` of `saveAllPostsToDatabase`: delete every
media row of the thread whose post id is among the scraped posts
(no type restriction). -/
def destroyMediaAll (db : List MediaRow) (threadId : Nat) (postIds : List Nat) :
    List MediaRow :=
  db.filter (fun r => !(r.threadId == threadId && postIds.contains r.postId))

/-- The `ForumMedia.create` loop for one post in the save functions: keep
an entry only when it is a Wasabi S3 URL, has a recognized media type, and
is not a thumbnail; `existThumb` stores the `hasThumbnail` flag. -/
def mediaRowsFor (threadId postId : Nat) (entries : List MediaEntry) : List MediaRow :=
  entries.filterMap (fun e =>
    if strIncludes e.s3Url "s3." && strIncludes e.s3Url "wasabisys.com" then
      match mediaTypeOf e.s3Url with
      | some ty =>
        if strIncludes e.s3Url "_thumb" then none
        else some ⟨threadId, postId, e.s3Url, ty,
          if e.hasThumbnail then 1 else 0⟩
      | none => none
    else none)

/-- Embedding of `saveAllPostsToDatabase` restricted to its effect on the
`ForumMedia` table: one destroy of all media rows of the scraped posts,
then the created rows of every post. The 5-post batching of the source
only partitions the same creation sequence and is collapsed here; `posts`
pairs each post id with the `postMediaMap` entries resolved for it. -/
def saveAllPostsToDatabase (db : List MediaRow) (threadId : Nat)
    (posts : List (Nat × List MediaEntry)) : List MediaRow :=
  destroyMediaAll db threadId (posts.map Prod.fst) ++
    posts.flatMap (fun pr => mediaRowsFor threadId pr.1 pr.2)

theorem scrapePagesFrom_completes (ok : Nat → Bool) (total : Nat) :
    ∀ (fuel pageNum : Nat) (row : ThreadRow), total + 1 - pageNum ≤ fuel →
      (∀ p, pageNum ≤ p → p ≤ total → ok p = true) →
      (scrapePagesFrom ok total row pageNum).2.1 = true := by
  intro fuel
  induction fuel with
  | zero =>
    intro p row h hok
    rw [scrapePagesFrom]
    have hp : total < p := by omega
    simp [hp]
  | succ f ihf =>
    intro p row h hok
    rw [scrapePagesFrom]
    by_cases hp : total < p
    · simp [hp]
    · simp only [hp, dite_false, hok p (Nat.le_refl p) (by omega), if_true]
      exact ihf (p + 1) _ (by omega) (fun q h1 h2 => hok q (by omega) h2)

theorem scrapePagesFrom_cp_ge (ok : Nat → Bool) (total : Nat) :
    ∀ (fuel pageNum : Nat) (row : ThreadRow), total + 1 - pageNum ≤ fuel →
      row.lastUpdatedPage.getD 0 ≤ pageNum →
      row.lastUpdatedPage.getD 0 ≤
        (scrapePagesFrom ok total row pageNum).1.lastUpdatedPage.getD 0 := by
  intro fuel
  induction fuel with
  | zero =>
    intro p row h hle
    rw [scrapePagesFrom]
    have hp : total < p := by omega
    simp [hp]
  | succ f ihf =>
    intro p row h hle
    rw [scrapePagesFrom]
    by_cases hp : total < p
    · simp [hp]
    · by_cases hok : ok p
      · simp only [hp, dite_false, hok, if_true]
        have := ihf (p + 1) { row with lastUpdatedPage := some p } (by omega)
          (by simp)
        simp only [Option.getD_some] at this
        omega
      · simp [hp, hok]

theorem scrapePagesFrom_writes_range (ok : Nat → Bool) (total : Nat) :
    ∀ (fuel pageNum : Nat) (row : ThreadRow), total + 1 - pageNum ≤ fuel →
      ∃ m, (scrapePagesFrom ok total row pageNum).2.2 = List.range' pageNum m := by
  intro fuel
  induction fuel with
  | zero =>
    intro p row h
    rw [scrapePagesFrom]
    have hp : total < p := by omega
    exact ⟨0, by simp [hp]⟩
  | succ f ihf =>
    intro p row h
    rw [scrapePagesFrom]
    by_cases hp : total < p
    · exact ⟨0, by simp [hp]⟩
    · by_cases hok : ok p
      · obtain ⟨m, hm⟩ := ihf (p + 1) { row with lastUpdatedPage := some p } (by omega)
        refine ⟨m + 1, ?_⟩
        simp only [hp, dite_false, hok, if_true, List.range'_succ]
        simpa using hm
      · exact ⟨0, by simp [hp, hok]⟩

theorem startPageOf_ge (o : Option Nat) : o.getD 0 ≤ startPageOf o := by
  cases o with
  | none => simp [startPageOf]
  | some p =>
    by_cases hp : p = 0 <;> simp [startPageOf, hp]

/-- C7: the checkpoint `lastUpdatedPage` never decreases: the page loop of
`scrapeAllThreadPages` writes exactly the ascending run of page numbers
`startPage, startPage + 1, …` (a `List.range'`), the start page is the
stored checkpoint (or 1 when it is null or 0), and the checkpoint value
after a run — and after any two consecutive runs — is at least the value
before it. -/
theorem lastUpdatedPage_monotone :
    (∀ (row : ThreadRow) (totalPages : Nat) (ok : Nat → Bool),
      row.lastUpdatedPage.getD 0 ≤
        (scrapeAllThreadPages row totalPages ok).lastUpdatedPage.getD 0) ∧
    (∀ (row : ThreadRow) (totalPages : Nat) (ok : Nat → Bool),
      ∃ m, (scrapePagesFrom ok totalPages row (startPageOf row.lastUpdatedPage)).2.2 =
        List.range' (startPageOf row.lastUpdatedPage) m) ∧
    (∀ (row : ThreadRow) (t₁ t₂ : Nat) (ok₁ ok₂ : Nat → Bool),
      row.lastUpdatedPage.getD 0 ≤
        ((scrapeAllThreadPages (scrapeAllThreadPages row t₁ ok₁) t₂ ok₂)).lastUpdatedPage.getD 0) := by
  have hone : ∀ (row : ThreadRow) (totalPages : Nat) (ok : Nat → Bool),
      row.lastUpdatedPage.getD 0 ≤
        (scrapeAllThreadPages row totalPages ok).lastUpdatedPage.getD 0 := by
    intro row total ok
    have hcp := scrapePagesFrom_cp_ge ok total (total + 1 - startPageOf row.lastUpdatedPage)
      (startPageOf row.lastUpdatedPage) row (by omega)
      (Nat.le_trans (startPageOf_ge _) (Nat.le_refl _))
    rw [scrapeAllThreadPages]
    by_cases hdone : (scrapePagesFrom ok total row (startPageOf row.lastUpdatedPage)).2.1
    · simpa [hdone] using hcp
    · simpa [hdone] using hcp
  refine ⟨hone, ?_, ?_⟩
  · intro row total ok
    exact scrapePagesFrom_writes_range ok total (total + 1 - startPageOf row.lastUpdatedPage)
      (startPageOf row.lastUpdatedPage) row (by omega)
  · intro row t₁ t₂ ok₁ ok₂
    exact Nat.le_trans (hone row t₁ ok₁) (hone _ t₂ ok₂)

/-- C1: a 3-page thread whose page 2 fails on every attempt is abandoned
with the checkpoint still at 1 and no fully-synced marker — but the next
run starts again at page 1, not at page 2: `startPage` is computed as
`lastUpdatedPage` itself, although the comment directly above it in the
source says `Start from lastUpdatedPage + 1`. -/
theorem scrapeAllThreadPages_resume_divergence :
    scrapeAllThreadPages ⟨42, "2024-05-01", none, none⟩ 3 (fun p => !(p == 2)) =
      ⟨42, "2024-05-01", none, some 1⟩ ∧
    startPageOf (some 1) = 1 ∧ ¬ startPageOf (some 1) = 2 := by
  refine ⟨?_, by simp [startPageOf], by simp [startPageOf]⟩
  rw [scrapeAllThreadPages]
  rw [scrapePagesFrom]
  simp only [startPageOf]
  norm_num
  rw [scrapePagesFrom]
  norm_num

/-- C5: for every thread id and worker count `N ≥ 1` exactly one worker
index below `N` satisfies the ownership predicate
`threadId % NODE_COUNT == NODE_INDEX` used by `getThreadsNeedingUpdate`;
with two workers and threads 1–4, worker 0 owns exactly 2 and 4 and
worker 1 owns exactly 1 and 3. -/
theorem owns_partition_unique :
    (∀ t N : Nat, 0 < N → ∃! w : Nat, w < N ∧ owns t w N = true) ∧
    [1, 2, 3, 4].filter (fun t => owns t 0 2) = [2, 4] ∧
    [1, 2, 3, 4].filter (fun t => owns t 1 2) = [1, 3] := by
  refine ⟨?_, by decide, by decide⟩
  intro t N hN
  refine ⟨t % N, ⟨Nat.mod_lt _ hN, by simp [owns]⟩, ?_⟩
  intro w hw
  have hw2 := hw.2
  simp only [owns, beq_iff_eq] at hw2
  omega

/-- C6: when every page of the walk succeeds, `scrapeAllThreadPages` sets
`detailPageUpdateDate` to the thread's `lastReplyDate`; the selection query
returns exactly the stored threads whose `detailPageUpdateDate` is null or
strictly smaller than `lastReplyDate`; and a thread whose
`detailPageUpdateDate` equals its `lastReplyDate` is never selected. -/
theorem syncMarker_selection :
    (∀ (row : ThreadRow) (totalPages : Nat) (ok : Nat → Bool),
      (∀ p, ok p = true) →
      (scrapeAllThreadPages row totalPages ok).detailPageUpdateDate =
        some row.lastReplyDate) ∧
    (∀ (rows : List ThreadRow) (t : ThreadRow),
      t ∈ findThreadsNeedingSync rows ↔ t ∈ rows ∧ needsDetailUpdate t = true) ∧
    (∀ (rows : List ThreadRow) (t : ThreadRow),
      t.detailPageUpdateDate = some t.lastReplyDate →
        t ∉ findThreadsNeedingSync rows) ∧
    (∀ (rows : List ThreadRow) (t : ThreadRow),
      t ∈ getThreadsNeedingUpdate rows 0 1 ↔ t ∈ rows ∧ needsDetailUpdate t = true) ∧
    (∀ (rows : List ThreadRow) (nodeIndex nodeCount : Nat) (t : ThreadRow),
      t.detailPageUpdateDate = some t.lastReplyDate →
        t ∉ getThreadsNeedingUpdate rows nodeIndex nodeCount) := by
  have hexc : ∀ (rows : List ThreadRow) (t : ThreadRow),
      t.detailPageUpdateDate = some t.lastReplyDate →
        t ∉ findThreadsNeedingSync rows := by
    intro rows t ht hmem
    rw [findThreadsNeedingSync, List.mem_filter] at hmem
    have := hmem.2
    rw [needsDetailUpdate, ht] at this
    simp only [decide_eq_true_eq] at this
    exact absurd this (lt_irrefl _)
  refine ⟨?_, ?_, hexc, ?_, ?_⟩
  · intro row total ok hok
    have hdone := scrapePagesFrom_completes ok total
      (total + 1 - startPageOf row.lastUpdatedPage)
      (startPageOf row.lastUpdatedPage) row (by omega)
      (fun p h1 h2 => hok p)
    rw [scrapeAllThreadPages]
    simp [hdone]
  · intro rows t
    simp [findThreadsNeedingSync, List.mem_filter]
  · intro rows t
    simp [getThreadsNeedingUpdate, findThreadsNeedingSync, List.mem_filter, owns,
      Nat.mod_one]
  · intro rows i n t ht hmem
    rw [getThreadsNeedingUpdate, List.mem_filter] at hmem
    exact hexc rows t ht hmem.1

/-- Witness for C6: a fully successful 2-page run sets the marker, and a
thread already carrying `detailPageUpdateDate = lastReplyDate` is excluded
from the selection. -/
theorem syncMarker_selection_witness :
    (scrapeAllThreadPages ⟨1, "2024-05-01", none, none⟩ 2 (fun _ => true)).detailPageUpdateDate =
      some "2024-05-01" ∧
    (⟨1, "2024-05-01", some "2024-05-01", none⟩ : ThreadRow) ∉
      findThreadsNeedingSync [⟨1, "2024-05-01", some "2024-05-01", none⟩] :=
  ⟨syncMarker_selection.1 _ 2 _ (fun _ => rfl),
   syncMarker_selection.2.2.1 _ _ rfl⟩

/-- C10: `getTotalPages` returns 1 on every failure path — a thrown
navigation or evaluation error, a missing `.pageNav-main`, a missing last
link, and an `href` without a trailing `page-N` (including the concrete
base thread URL) — and a thread whose page-count discovery failed is walked
as a single-page thread and, when that page succeeds, is still marked fully
synced, with no error surfaced. -/
theorem getTotalPages_total_on_failure :
    getTotalPages .navError = 1 ∧ getTotalPages .noPageNav = 1 ∧
    getTotalPages .noLastLink = 1 ∧
    getTotalPages (.lastLink "/threads/mc-kolos.3654511/") = 1 ∧
    (∀ href, matchPageSuffix href = none → getTotalPages (.lastLink href) = 1) ∧
    (∀ (row : ThreadRow) (ok : Nat → Bool), row.lastUpdatedPage = none →
      ok 1 = true →
      (scrapeAllThreadPages row (getTotalPages .navError) ok).detailPageUpdateDate =
        some row.lastReplyDate) := by
  refine ⟨rfl, rfl, rfl, by decide, ?_, ?_⟩
  · intro href h
    simp [getTotalPages, h]
  · intro row ok hrow hok
    have hdone := scrapePagesFrom_completes ok 1 1 1 row (by omega)
      (fun p h1 h2 => by
        have hp : p = 1 := by omega
        rw [hp]; exact hok)
    rw [scrapeAllThreadPages]
    simp only [hrow, startPageOf]
    simp [getTotalPages, hdone]

/-- Witness for C5: the uniqueness of the owning worker instantiated at
thread 7 with 3 workers. -/
theorem owns_partition_unique_witness :
    ∃! w : Nat, w < 3 ∧ owns 7 w 3 = true :=
  owns_partition_unique.1 7 3 (by decide)

/-- Witness for C10: a thread whose page discovery threw is treated as a
single-page thread and marked fully synced after one successful page. -/
theorem getTotalPages_total_on_failure_witness :
    (scrapeAllThreadPages ⟨9, "2024-01-01", none, none⟩ (getTotalPages .navError)
        (fun _ => true)).detailPageUpdateDate = some "2024-01-01" ∧
    getTotalPages (.lastLink "abc") = 1 :=
  ⟨getTotalPages_total_on_failure.2.2.2.2.2 ⟨9, "2024-01-01", none, none⟩
      (fun _ => true) rfl rfl,
   getTotalPages_total_on_failure.2.2.2.2.1 "abc" rfl⟩

theorem downloadLoop_count_le (op : Nat → Option α) :
    ∀ (fuel attempt : Nat), dMAX_RETRIES + 1 - attempt ≤ fuel →
      (downloadLoop op attempt).2.1 ≤ dMAX_RETRIES + 1 - attempt := by
  intro fuel
  induction fuel with
  | zero =>
    intro a h
    rw [downloadLoop]
    have ha : dMAX_RETRIES < a := by simp [dMAX_RETRIES] at h ⊢; omega
    simp [ha]
  | succ f ihf =>
    intro a h
    rw [downloadLoop]
    by_cases ha : dMAX_RETRIES < a
    · simp [ha]
    · cases hop : op a with
      | some v => simp [ha, hop]; omega
      | none =>
        by_cases hlast : a = dMAX_RETRIES
        · simp [ha, hop, hlast, dMAX_RETRIES]
        · have := ihf (a + 1) (by omega)
          simp only [ha, dite_false, hop, hlast, if_false]
          simp only [dMAX_RETRIES] at ha hlast this ⊢
          omega

theorem processUploadTask_active (op : Nat → Option String) (retryCount : Nat) :
    processUploadTask op true retryCount = (none, 0, []) := by
  rw [processUploadTask]
  simp

/-- C3: `downloadFromAttachmentPage` behaves as the claim says — at most
`MAX_RETRIES` (3) executions of its body, and on permanent failure `null`
after exactly 3 attempts with waits `1000 * attempt` before attempts 2 and
3 — but `processUploadTask` never retries at all: its body runs at most
once, and on a permanently failing task (not already in flight) it returns
`null` after a single body execution and a single 2000 ms wait, because
the recursive retry call is evaluated before the `finally` clears the
`activeUploads` guard and is rejected by it. -/
theorem retryPolicy_attempts :
    (∀ (op : Nat → Option Nat), (downloadFromAttachmentPage op).2.1 ≤ dMAX_RETRIES) ∧
    downloadFromAttachmentPage (fun _ => (none : Option Nat)) =
      (none, dMAX_RETRIES, [2000, 3000]) ∧
    (∀ (op : Nat → Option String) (retryCount : Nat),
      (processUploadTask op false retryCount).2.1 ≤ 1) ∧
    processUploadTask (fun _ => (none : Option String)) false 0 = (none, 1, [2000]) ∧
    s3MAX_RETRIES = 3 := by
  refine ⟨?_, ?_, ?_, ?_, rfl⟩
  · intro op
    have := downloadLoop_count_le op (dMAX_RETRIES + 1) 1 (by omega)
    simpa [downloadFromAttachmentPage, dMAX_RETRIES] using this
  · rw [downloadFromAttachmentPage]
    rw [downloadLoop]; simp only [dMAX_RETRIES]; norm_num
    rw [downloadLoop]; simp only [dMAX_RETRIES]; norm_num
    rw [downloadLoop]; simp only [dMAX_RETRIES]; norm_num
  · intro op rc
    rw [processUploadTask]
    cases hop : op rc with
    | some s => simp [hop]
    | none =>
      by_cases hrc : rc < s3MAX_RETRIES
      · simp [hop, hrc, processUploadTask_active]
      · simp [hop, hrc]
  · rw [processUploadTask]
    simp [processUploadTask_active, s3MAX_RETRIES, s3RETRY_DELAY]

theorem dedupMediasAux_notin_seen :
    ∀ (l : List (String × String)) (seen : List String) (m' : String × String),
      m' ∈ dedupMediasAux l seen → seen.contains (dedupKey m') = false := by
  intro l
  induction l with
  | nil => intro seen m' h; simp [dedupMediasAux] at h
  | cons m rest ih =>
    intro seen m' h
    rw [dedupMediasAux] at h
    by_cases hc : seen.contains (dedupKey m)
    · rw [if_pos hc] at h
      exact ih seen m' h
    · rw [if_neg hc] at h
      rcases List.mem_cons.mp h with heq | hmem
      · subst heq
        exact Bool.not_eq_true _ ▸ hc
      · have := ih (dedupKey m :: seen) m' hmem
        simp only [List.contains_cons, Bool.or_eq_false_iff] at this
        exact this.2

theorem dedupMediasAux_keys_nodup :
    ∀ (l : List (String × String)) (seen : List String),
      ((dedupMediasAux l seen).map dedupKey).Nodup := by
  intro l
  induction l with
  | nil => intro seen; simp [dedupMediasAux]
  | cons m rest ih =>
    intro seen
    rw [dedupMediasAux]
    by_cases hc : seen.contains (dedupKey m)
    · rw [if_pos hc]; exact ih seen
    · rw [if_neg hc]
      simp only [List.map_cons, List.nodup_cons]
      refine ⟨?_, ih (dedupKey m :: seen)⟩
      intro hmem
      obtain ⟨m', hm', hkey⟩ := List.mem_map.mp hmem
      have := dedupMediasAux_notin_seen rest (dedupKey m :: seen) m' hm'
      simp only [List.contains_cons, Bool.or_eq_false_iff, beq_eq_false_iff_ne] at this
      exact this.1 hkey

theorem dedupMediasAux_covers :
    ∀ (l : List (String × String)) (seen : List String) (m : String × String),
      m ∈ l → seen.contains (dedupKey m) = false →
      ∃ m' ∈ dedupMediasAux l seen, dedupKey m' = dedupKey m := by
  intro l
  induction l with
  | nil => intro seen m h; simp at h
  | cons a rest ih =>
    intro seen m hmem hseen
    rw [dedupMediasAux]
    by_cases hc : seen.contains (dedupKey a)
    · rw [if_pos hc]
      rcases List.mem_cons.mp hmem with heq | hmem'
      · subst heq; rw [hseen] at hc; exact absurd hc (by simp)
      · exact ih seen m hmem' hseen
    · rw [if_neg hc]
      by_cases hkey : dedupKey m = dedupKey a
      · exact ⟨a, List.mem_cons_self _ _, hkey.symm⟩
      · have hmem' : m ∈ rest := by
          rcases List.mem_cons.mp hmem with heq | hmem'
          · subst heq; exact absurd rfl hkey
          · exact hmem'
        obtain ⟨m', hm', hk⟩ := ih (dedupKey a :: seen) m hmem' (by
          simp only [List.contains_cons, Bool.or_eq_false_iff, beq_eq_false_iff_ne]
          exact ⟨fun hh => hkey hh, hseen⟩)
        exact ⟨m', List.mem_cons_of_mem _ hm', hk⟩

theorem dedupMediasAux_first :
    ∀ (l : List (String × String)) (seen : List String) (m' : String × String),
      m' ∈ dedupMediasAux l seen →
      l.find? (fun x => dedupKey x == dedupKey m') = some m' := by
  intro l
  induction l with
  | nil => intro seen m' h; simp [dedupMediasAux] at h
  | cons a rest ih =>
    intro seen m' h
    rw [dedupMediasAux] at h
    by_cases hc : seen.contains (dedupKey a)
    · rw [if_pos hc] at h
      have hne : (dedupKey a == dedupKey m') = false := by
        have hnotin := dedupMediasAux_notin_seen rest seen m' h
        rw [beq_eq_false_iff_ne]
        intro heq
        rw [← heq] at hnotin
        rw [hnotin] at hc
        exact absurd hc (by simp)
      rw [List.find?_cons_of_neg _ (by simp [hne])]
      exact ih seen m' h
    · rw [if_neg hc] at h
      rcases List.mem_cons.mp h with heq | hmem
      · subst heq
        rw [List.find?_cons_of_pos _ (by simp)]
      · have hnotin := dedupMediasAux_notin_seen rest (dedupKey a :: seen) m' hmem
        simp only [List.contains_cons, Bool.or_eq_false_iff, beq_eq_false_iff_ne] at hnotin
        rw [List.find?_cons_of_neg _ (by simp; exact fun hh => hnotin.1 hh.symm)]
        exact ih (dedupKey a :: seen) m' hmem

theorem dedupMediasAux_sublist :
    ∀ (l : List (String × String)) (seen : List String),
      (dedupMediasAux l seen).Sublist l := by
  intro l
  induction l with
  | nil => intro seen; simp [dedupMediasAux]
  | cons a rest ih =>
    intro seen
    rw [dedupMediasAux]
    by_cases hc : seen.contains (dedupKey a)
    · rw [if_pos hc]; exact (ih seen).cons a
    · rw [if_neg hc]; exact (ih (dedupKey a :: seen)).cons₂ a

/-- C8: the per-post media deduplication of `scrapePagePosts` keeps, for
every deduplication key (`fullUrl || thumbUrl`), exactly the first pair of
the post carrying that key: the kept pairs are a sublist of the originals
with pairwise distinct keys, every original key is still represented, and
each kept pair is the first occurrence of its key — so no two pairs with
the same key URL are ever handed to the ingestion pipeline for one post. -/
theorem dedupMedias_first_occurrence :
    (∀ l : List (String × String), ((dedupMedias l).map dedupKey).Nodup) ∧
    (∀ l : List (String × String), (dedupMedias l).Sublist l) ∧
    (∀ (l : List (String × String)) (m : String × String), m ∈ l →
      ∃ m' ∈ dedupMedias l, dedupKey m' = dedupKey m) ∧
    (∀ (l : List (String × String)) (m' : String × String), m' ∈ dedupMedias l →
      l.find? (fun x => dedupKey x == dedupKey m') = some m') := by
  refine ⟨?_, ?_, ?_, ?_⟩
  · intro l; exact dedupMediasAux_keys_nodup l []
  · intro l; exact dedupMediasAux_sublist l []
  · intro l m hm; exact dedupMediasAux_covers l [] m hm rfl
  · intro l m' hm'; exact dedupMediasAux_first l [] m' hm'

/-- Witness for C8: with two pairs sharing the key `a`, only the first is
kept. -/
theorem dedupMedias_first_occurrence_witness :
    (∃ m' ∈ dedupMedias [("a", ""), ("a", "t"), ("", "b")],
      dedupKey m' = dedupKey ("a", "t")) ∧
    ((dedupMedias [("a", ""), ("a", "t"), ("", "b")]).map dedupKey).Nodup :=
  ⟨dedupMedias_first_occurrence.2.2.1 [("a", ""), ("a", "t"), ("", "b")]
      ("a", "t") (by decide),
   dedupMedias_first_occurrence.1 [("a", ""), ("a", "t"), ("", "b")]⟩

theorem replaceFirstAux_nil_length_le :
    ∀ (l pat : List Char), (replaceFirstAux l pat []).length ≤ l.length := by
  intro l
  induction l with
  | nil =>
    intro pat
    rw [replaceFirstAux]
    by_cases hp : pat.isEmpty <;> simp [hp]
  | cons c rest ih =>
    intro pat
    rw [replaceFirstAux]
    by_cases hp : pat.isPrefixOf (c :: rest)
    · rw [if_pos hp]
      simp only [List.nil_append]
      exact (List.drop_sublist _ _).length_le
    · rw [if_neg hp]
      simp only [List.length_cons]
      exact Nat.succ_le_succ (ih pat)

theorem gkweBase_length_le (u : String) :
    (gkweBase u false).data.length ≤ (gkweBase u true).data.length := by
  rw [gkweBase, gkweBase]
  simp only [Bool.not_false, Bool.not_true, Bool.true_and, Bool.false_and,
    Bool.false_eq_true, if_false]
  by_cases hc : hasSub (headPartOr
      (splitChars '.' (lastPartOr (splitChars '/' u.data) "media".data)) "media".data)
      "-media".data
  · simp only [hc, if_true]
    show (sanitizeChars _).length ≤ (sanitizeChars _).length
    simp only [sanitizeChars, List.length_map]
    exact replaceFirstAux_nil_length_le _ _
  · simp only [hc, if_false]
    exact Nat.le_refl _

theorem gkBase_length_le (u : String) :
    (gkBase u false).data.length ≤ (gkBase u true).data.length := by
  rw [gkBase, gkBase]
  simp only [Bool.not_false, Bool.not_true, Bool.true_and, Bool.false_and,
    Bool.false_eq_true, if_false]
  by_cases hc : hasSub (replaceFirstAux
      (lastPartOr (splitChars '/' (urlPathname u).data) "media".data)
      ('.' :: (gkExtension u).data) []) "-media".data
  · simp only [hc, if_true]
    show (replaceFirstAux _ _ []).length ≤ _
    exact replaceFirstAux_nil_length_le _ _
  · simp only [hc, if_false]
    exact Nat.le_refl _

theorem natToString_data_inj (a b : Nat)
    (h : (natToString a).data = (natToString b).data) : a = b :=
  natToString_inj a b (congrArg String.mk h)

theorem generateKeyWithExtension_eq (u ext : String) (th : Bool) (t p uid : Nat) :
    generateKeyWithExtension u t p ext th uid =
      "forum-media/" ++ natToString t ++ "/" ++ natToString p ++ "/" ++
        natToString uid ++ "-" ++ gkweBase u th ++ (if th then "_thumb" else "") ++
        (if strStartsWith ext "." then ext else "." ++ ext) := rfl

theorem generateKey_eq (u : String) (th : Bool) (t p uid : Nat) :
    generateKey u t p th uid =
      "forum-media/" ++ natToString t ++ "/" ++ natToString p ++ "/" ++
        natToString uid ++ "-" ++ gkBase u th ++ (if th then "_thumb" else "") ++
        "." ++ gkExtension u := rfl

/-- C4 (amended): both key generators are deterministic pure functions of
their arguments and produce keys of the shape
`forum-media/{threadId}/{postId}/{uniqueId}-{base}{thumbSuffix}{extension}`;
the base name of `generateKeyWithExtension` is sanitized by replacing every
character outside `[A-Za-z0-9.-]` with an underscore (so it consists of
characters of `[A-Za-z0-9.-]` plus `_`), while `generateKey` contains no
sanitization step — its base is the raw `gkBase`; for fixed URL, thread,
post and extension, changing `uniqueId` or `isThumbnail` changes the key of
either generator. -/
theorem generateKey_shape_sensitivity :
    (∀ u ext th uid (t p : Nat),
      generateKeyWithExtension u t p ext th uid =
        "forum-media/" ++ natToString t ++ "/" ++ natToString p ++ "/" ++
          natToString uid ++ "-" ++ gkweBase u th ++ (if th then "_thumb" else "") ++
          (if strStartsWith ext "." then ext else "." ++ ext)) ∧
    (∀ u th c, c ∈ (gkweBase u th).data → allowedChar c = true ∨ c = '_') ∧
    (∀ u th uid (t p : Nat),
      generateKey u t p th uid =
        "forum-media/" ++ natToString t ++ "/" ++ natToString p ++ "/" ++
          natToString uid ++ "-" ++ gkBase u th ++ (if th then "_thumb" else "") ++
          "." ++ gkExtension u) ∧
    (∀ u ext th uid₁ uid₂ (t p : Nat), uid₁ ≠ uid₂ →
      generateKeyWithExtension u t p ext th uid₁ ≠
        generateKeyWithExtension u t p ext th uid₂) ∧
    (∀ u th uid₁ uid₂ (t p : Nat), uid₁ ≠ uid₂ →
      generateKey u t p th uid₁ ≠ generateKey u t p th uid₂) ∧
    (∀ u ext uid (t p : Nat),
      generateKeyWithExtension u t p ext false uid ≠
        generateKeyWithExtension u t p ext true uid) ∧
    (∀ u uid (t p : Nat), generateKey u t p false uid ≠ generateKey u t p true uid) := by
  refine ⟨fun u ext th uid t p => rfl, ?_, fun u th uid t p => rfl, ?_, ?_, ?_, ?_⟩
  · intro u th c hc
    rw [gkweBase] at hc
    obtain ⟨b, hb, hbc⟩ := List.mem_map.mp hc
    by_cases hab : allowedChar b
    · left; rw [← hbc]; simp [hab]
    · right; rw [← hbc]; simp [hab]
  · intro u ext th uid₁ uid₂ t p hne h
    rw [generateKeyWithExtension_eq, generateKeyWithExtension_eq] at h
    have hd := congrArg String.data h
    simp only [String.data_append, List.append_assoc] at hd
    have h1 := List.append_cancel_left hd
    have h2 := List.append_cancel_left h1
    have h3 := List.append_cancel_left h2
    have h4 := List.append_cancel_left h3
    have h5 := List.append_cancel_left h4
    exact hne (natToString_data_inj _ _ (List.append_cancel_right h5))
  · intro u th uid₁ uid₂ t p hne h
    rw [generateKey_eq, generateKey_eq] at h
    have hd := congrArg String.data h
    simp only [String.data_append, List.append_assoc] at hd
    have h1 := List.append_cancel_left hd
    have h2 := List.append_cancel_left h1
    have h3 := List.append_cancel_left h2
    have h4 := List.append_cancel_left h3
    have h5 := List.append_cancel_left h4
    exact hne (natToString_data_inj _ _ (List.append_cancel_right h5))
  · intro u ext uid t p h
    rw [generateKeyWithExtension_eq, generateKeyWithExtension_eq] at h
    have hlen := congrArg (fun s => s.data.length) h
    simp only [String.data_append, List.length_append, if_true, if_false,
      Bool.false_eq_true, List.length_cons, List.length_nil] at hlen
    have hbase := gkweBase_length_le u
    omega
  · intro u uid t p h
    rw [generateKey_eq, generateKey_eq] at h
    have hlen := congrArg (fun s => s.data.length) h
    simp only [String.data_append, List.length_append, if_true, if_false,
      Bool.false_eq_true, List.length_cons, List.length_nil] at hlen
    have hbase := gkBase_length_le u
    omega

/-- Witness for C4: sensitivity instantiated — changing `uniqueId` from 0
to 1, and `isThumbnail` from `false` to `true`, changes the concrete keys. -/
theorem generateKey_shape_sensitivity_witness :
    generateKeyWithExtension "https://x.com/a b" 7 8 ".png" false 0 ≠
      generateKeyWithExtension "https://x.com/a b" 7 8 ".png" false 1 ∧
    generateKey "https://x.com/pics/photo.jpg" 7 8 false 2 ≠
      generateKey "https://x.com/pics/photo.jpg" 7 8 true 2 :=
  ⟨generateKey_shape_sensitivity.2.2.2.1 "https://x.com/a b" ".png" false 0 1 7 8
      (by decide),
   generateKey_shape_sensitivity.2.2.2.2.2.2 "https://x.com/pics/photo.jpg" 2 7 8⟩

/-- Counterexample for C4 as stated: the sanitization of
`generateKeyWithExtension` replaces disallowed characters with `_` rather
than stripping them, so for a raw URL whose filename is `a b` the base
name of the produced key is `a_b`, and `_` is a character outside
`[A-Za-z0-9.-]`. -/
theorem generateKey_sanitization_counterexample :
    generateKeyWithExtension "https://x.com/a b" 7 8 ".png" false 0 =
      "forum-media/7/8/0-a_b.png" ∧
    '_' ∈ (gkweBase "https://x.com/a b" false).data ∧
    allowedChar '_' = false :=
  ⟨by decide, by decide, rfl⟩

theorem taskResult_postId (bucket region : String) (ok : UploadTask → Bool)
    (t : UploadTask) : (taskResult bucket region ok t).postId = t.postId := by
  rw [taskResult]
  by_cases h : ok t <;> simp [h]

theorem processBatchMedia_mem (bucket region : String)
    (posts : List (Nat × List (String × String))) (threadId : Nat)
    (ok : UploadTask → Bool) (p : Nat) (e : MediaEntry) :
    e ∈ processBatchMedia bucket region posts threadId ok p ↔
      ∃ t ∈ uploadTasksOf (posts.flatMap (fun pr => allMediaTasksFor threadId pr.1 pr.2)),
        ok t = true ∧ t.isThumb = 0 ∧ t.postId = p ∧
        e = ⟨finalS3Url bucket region t.key, t.hasThumb⟩ := by
  rw [processBatchMedia]
  simp only [List.mem_filterMap, List.mem_map]
  constructor
  · rintro ⟨r', ⟨t, ht, rfl⟩, hg⟩
    refine ⟨t, ht, ?_⟩
    by_cases hok : ok t
    · simp only [taskResult, hok, if_true] at hg
      simp only [Option.ite_none_right_eq_some, Option.some.injEq, Bool.and_eq_true,
        beq_iff_eq] at hg
      exact ⟨hok, hg.1.1.2, hg.1.2, hg.2.symm⟩
    · simp [taskResult, hok] at hg
  · rintro ⟨t, ht, hok, h1, h2, rfl⟩
    refine ⟨taskResult bucket region ok t, ⟨t, ht, rfl⟩, ?_⟩
    simp [taskResult, hok, h1, h2]

theorem processBatchMedia_local (bucket region : String)
    (posts : List (Nat × List (String × String))) (threadId : Nat)
    (ok₁ ok₂ : UploadTask → Bool) (p : Nat)
    (hagree : ∀ t ∈ uploadTasksOf
        (posts.flatMap (fun pr => allMediaTasksFor threadId pr.1 pr.2)),
      t.postId = p → ok₁ t = ok₂ t) :
    processBatchMedia bucket region posts threadId ok₁ p =
      processBatchMedia bucket region posts threadId ok₂ p := by
  rw [processBatchMedia, processBatchMedia]
  have hgen : ∀ (ts : List UploadTask), (∀ t ∈ ts, t.postId = p → ok₁ t = ok₂ t) →
      (ts.map (taskResult bucket region ok₁)).filterMap
        (fun r => if r.success && r.isThumb == 0 && r.postId == p then
          some (⟨r.s3Url, r.hasThumb⟩ : MediaEntry) else none) =
      (ts.map (taskResult bucket region ok₂)).filterMap
        (fun r => if r.success && r.isThumb == 0 && r.postId == p then
          some (⟨r.s3Url, r.hasThumb⟩ : MediaEntry) else none) := by
    intro ts
    induction ts with
    | nil => intro hyp; rfl
    | cons t rest ih =>
      intro hyp
      simp only [List.map_cons, List.filterMap_cons]
      by_cases hp : t.postId = p
      · have heq : taskResult bucket region ok₁ t = taskResult bucket region ok₂ t := by
          rw [taskResult, taskResult, hyp t (List.mem_cons_self _ _) hp]
        rw [heq, ih (fun q hq hqp => hyp q (List.mem_cons_of_mem _ hq) hqp)]
      · have hres : ∀ okx : UploadTask → Bool,
            (if (taskResult bucket region okx t).success &&
                (taskResult bucket region okx t).isThumb == 0 &&
                (taskResult bucket region okx t).postId == p then
              some (⟨(taskResult bucket region okx t).s3Url,
                (taskResult bucket region okx t).hasThumb⟩ : MediaEntry)
            else none) = none := by
          intro okx
          have hpid := taskResult_postId bucket region okx t
          rw [if_neg]
          simp only [Bool.and_eq_true, beq_iff_eq, hpid]
          intro hcond
          exact hp hcond.2
        rw [hres ok₁, hres ok₂]
        exact ih (fun q hq hqp => hyp q (List.mem_cons_of_mem _ hq) hqp)
  exact hgen _ hagree

/-- C9: the map `processBatchMedia` returns contains, for every post id,
exactly the entries of its successfully stored full-size tasks — each
carrying its `hasThumbnail` flag — and nothing for failed or thumbnail
tasks; and the entries of one post depend only on the outcomes of that
post's own tasks, so a failure of any other task never aborts or perturbs
the rest of the batch. -/
theorem processBatchMedia_best_effort :
    (∀ (bucket region : String) (posts : List (Nat × List (String × String)))
        (threadId : Nat) (ok : UploadTask → Bool) (p : Nat) (e : MediaEntry),
      e ∈ processBatchMedia bucket region posts threadId ok p ↔
        ∃ t ∈ uploadTasksOf
            (posts.flatMap (fun pr => allMediaTasksFor threadId pr.1 pr.2)),
          ok t = true ∧ t.isThumb = 0 ∧ t.postId = p ∧
          e = ⟨finalS3Url bucket region t.key, t.hasThumb⟩) ∧
    (∀ (bucket region : String) (posts : List (Nat × List (String × String)))
        (threadId : Nat) (ok₁ ok₂ : UploadTask → Bool) (p : Nat),
      (∀ t ∈ uploadTasksOf
          (posts.flatMap (fun pr => allMediaTasksFor threadId pr.1 pr.2)),
        t.postId = p → ok₁ t = ok₂ t) →
      processBatchMedia bucket region posts threadId ok₁ p =
        processBatchMedia bucket region posts threadId ok₂ p) :=
  ⟨processBatchMedia_mem, processBatchMedia_local⟩

/-- Witness for C9: the entries of post 5 are unchanged when the outcome
oracle is altered only outside post 5's tasks. -/
theorem processBatchMedia_best_effort_witness :
    processBatchMedia "bkt" "reg" [(5, [("https://a.com/x.jpg", "")])] 9
        (fun _ => true) 5 =
      processBatchMedia "bkt" "reg" [(5, [("https://a.com/x.jpg", "")])] 9
        (fun t => t.postId == 5) 5 :=
  processBatchMedia_best_effort.2 "bkt" "reg" [(5, [("https://a.com/x.jpg", "")])] 9
    (fun _ => true) (fun t => t.postId == 5) 5 (fun t ht h5 => by simp [h5])

theorem mediaRowsFor_fields (threadId postId : Nat) (entries : List MediaEntry) :
    ∀ r ∈ mediaRowsFor threadId postId entries,
      r.threadId = threadId ∧ r.postId = postId := by
  intro r hr
  rw [mediaRowsFor, List.mem_filterMap] at hr
  obtain ⟨e, he, heq⟩ := hr
  split at heq
  · split at heq
    · split at heq
      · exact absurd heq (by simp)
      · cases heq
        exact ⟨rfl, rfl⟩
    · exact absurd heq (by simp)
  · exact absurd heq (by simp)

theorem mediaRowsFor_filter_self (t p : Nat) (es : List MediaEntry) :
    (mediaRowsFor t p es).filter (fun r => r.threadId == t && r.postId == p) =
      mediaRowsFor t p es := by
  rw [List.filter_eq_self]
  intro r hr
  have hf := mediaRowsFor_fields t p es r hr
  simp [hf.1, hf.2]

theorem mediaRowsFor_filter_other (t p q : Nat) (es : List MediaEntry) (hq : q ≠ p) :
    (mediaRowsFor t q es).filter (fun r => r.threadId == t && r.postId == p) = [] := by
  rw [List.filter_eq_nil_iff]
  intro r hr
  have hf := mediaRowsFor_fields t q es r hr
  simp [hf.2, hq]

theorem flatMap_mediaRows_filter_nil (t p : Nat) :
    ∀ (posts : List (Nat × List MediaEntry)), ¬ p ∈ posts.map Prod.fst →
      ((posts.flatMap fun pr => mediaRowsFor t pr.1 pr.2).filter
        (fun r => r.threadId == t && r.postId == p)) = [] := by
  intro posts
  induction posts with
  | nil => intro h; rfl
  | cons a rest ih =>
    intro h
    simp only [List.map_cons, List.mem_cons, not_or] at h
    rw [List.flatMap_cons, List.filter_append]
    rw [mediaRowsFor_filter_other t p a.1 a.2 (fun hh => h.1 hh.symm)]
    rw [ih (by simpa using h.2)]
    rfl

theorem flatMap_mediaRows_filter (t p : Nat) :
    ∀ (posts : List (Nat × List MediaEntry)) (es : List MediaEntry),
      (p, es) ∈ posts → (posts.map Prod.fst).Nodup →
      ((posts.flatMap fun pr => mediaRowsFor t pr.1 pr.2).filter
        (fun r => r.threadId == t && r.postId == p)) = mediaRowsFor t p es := by
  intro posts
  induction posts with
  | nil => intro es h; simp at h
  | cons a rest ih =>
    intro es hmem hnodup
    simp only [List.map_cons, List.nodup_cons] at hnodup
    rw [List.flatMap_cons, List.filter_append]
    rcases List.mem_cons.mp hmem with heq | hmem'
    · obtain rfl := heq.symm
      rw [mediaRowsFor_filter_self t p es]
      rw [flatMap_mediaRows_filter_nil t p rest hnodup.1]
      exact List.append_nil _
    · have hne : a.1 ≠ p := by
        intro hh
        exact hnodup.1 (hh ▸ List.mem_map.mpr ⟨(p, es), hmem', rfl⟩)
      rw [mediaRowsFor_filter_other t p a.1 a.2 hne]
      rw [ih es hmem' hnodup.2]
      rfl

theorem destroyMediaAll_filter_nil (db : List MediaRow) (t : Nat)
    (postIds : List Nat) (p : Nat) (hp : p ∈ postIds) :
    (destroyMediaAll db t postIds).filter
      (fun r => r.threadId == t && r.postId == p) = [] := by
  rw [List.filter_eq_nil_iff]
  intro r hr
  rw [destroyMediaAll, List.mem_filter] at hr
  intro hcond
  simp only [Bool.and_eq_true, beq_iff_eq] at hcond
  have hkeep := hr.2
  rw [hcond.1, hcond.2] at hkeep
  simp [hp] at hkeep

theorem destroyMediaAll_filter_other (db : List MediaRow) (t : Nat)
    (postIds : List Nat) (q : Nat) (hq : ¬ q ∈ postIds) :
    (destroyMediaAll db t postIds).filter (fun r => r.postId == q) =
      db.filter (fun r => r.postId == q) := by
  rw [destroyMediaAll, List.filter_filter]
  apply List.filter_congr
  intro r hr
  by_cases hpid : r.postId = q
  · simp [hpid, hq]
  · simp [hpid]

theorem flatMap_mediaRows_filter_q (t q : Nat) :
    ∀ (posts : List (Nat × List MediaEntry)), ¬ q ∈ posts.map Prod.fst →
      ((posts.flatMap fun pr => mediaRowsFor t pr.1 pr.2).filter
        (fun r => r.postId == q)) = [] := by
  intro posts hq
  rw [List.filter_eq_nil_iff]
  intro r hr
  rw [List.mem_flatMap] at hr
  obtain ⟨pr, hpr, hrmem⟩ := hr
  have hf := mediaRowsFor_fields t pr.1 pr.2 r hrmem
  simp only [beq_iff_eq, hf.2]
  intro hh
  exact hq (hh ▸ List.mem_map.mpr ⟨pr, hpr, rfl⟩)

/-- C2: `saveAllPostsToDatabase` implements replace-on-rescrape on the
`ForumMedia` table: after a save, the media rows of each scraped post are
exactly the rows created from that post's newly resolved entries (every
pre-existing row of the post was destroyed first), while the rows of every
post not in the batch are untouched. -/
theorem saveAllPosts_replace_on_rescrape
    (db : List MediaRow) (threadId : Nat) (posts : List (Nat × List MediaEntry))
    (p : Nat) (es : List MediaEntry)
    (hmem : (p, es) ∈ posts) (hnodup : (posts.map Prod.fst).Nodup) :
    ((saveAllPostsToDatabase db threadId posts).filter
        (fun r => r.threadId == threadId && r.postId == p) =
      mediaRowsFor threadId p es) ∧
    (∀ q, ¬ q ∈ posts.map Prod.fst →
      (saveAllPostsToDatabase db threadId posts).filter (fun r => r.postId == q) =
        db.filter (fun r => r.postId == q)) := by
  constructor
  · rw [saveAllPostsToDatabase, List.filter_append]
    rw [destroyMediaAll_filter_nil db threadId _ p
      (List.mem_map.mpr ⟨(p, es), hmem, rfl⟩)]
    rw [flatMap_mediaRows_filter threadId p posts es hmem hnodup]
    rfl
  · intro q hq
    rw [saveAllPostsToDatabase, List.filter_append]
    rw [destroyMediaAll_filter_other db threadId _ q hq]
    rw [flatMap_mediaRows_filter_q threadId q posts hq]
    exact List.append_nil _

/-- A stored full-size image asset used in the replace-on-rescrape
scenario. -/
def assetA : MediaEntry :=
  ⟨"https://bkt.s3.us-east-2.wasabisys.com/forum-media/1/2/0-a.jpg", false⟩

/-- A second stored asset, present in the first scrape only. -/
def assetB : MediaEntry :=
  ⟨"https://bkt.s3.us-east-2.wasabisys.com/forum-media/1/2/1-b.jpg", false⟩

/-- Witness for C2: a post whose media set changes from `{A, B}` to `{A}`
between two saves ends with exactly the row of `A`. -/
theorem saveAllPosts_replace_on_rescrape_witness :
    ((saveAllPostsToDatabase (saveAllPostsToDatabase [] 1 [(2, [assetA, assetB])]) 1
        [(2, [assetA])]).filter (fun r => r.threadId == 1 && r.postId == 2) =
      mediaRowsFor 1 2 [assetA]) ∧
    mediaRowsFor 1 2 [assetA] =
      [⟨1, 2, "https://bkt.s3.us-east-2.wasabisys.com/forum-media/1/2/0-a.jpg",
        "img", 0⟩] :=
  ⟨(saveAllPosts_replace_on_rescrape
      (saveAllPostsToDatabase [] 1 [(2, [assetA, assetB])]) 1 [(2, [assetA])] 2 [assetA]
      (by simp) (by simp)).1,
   by decide⟩

end ForumScraping
